import Mathlib

/-!
Verification of the n2kd aggregation server (src/n2kd/main.c) against its
natural-language specification.  The C code is shallowly embedded: lines are
`List Char`, the PGN store is an association list in first-observation order,
machine integers are `Nat`/`Int` with explicit `% 256` where the code casts to
`uint8_t`, and fatal `logAbort` paths are an explicit `abort` result.
-/

set_option autoImplicit false
set_option maxRecDepth 16384

/-! ## List utilities (embeddings of strstr / strchr / memcmp) -/

/-- True when the first list begins with the second (memcmp of the
leading bytes). -/
def hasLead : List Char → List Char → Bool
  | _, [] => true
  | [], _ :: _ => false
  | c :: s, d :: p => c == d && hasLead s p

/-- Position of the first occurrence of character `c` in `s` (strchr). -/
def findChar : List Char → Char → Option Nat
  | [], _ => none
  | d :: s, c => if d == c then some 0 else (findChar s c).map (· + 1)

/-- Position of the first occurrence of `p` as a contiguous sublist of `s`
(strstr). -/
def findSub : List Char → List Char → Option Nat
  | s, p =>
    if hasLead s p then some 0
    else match s with
      | [] => none
      | _ :: t => (findSub t p).map (· + 1)

/-- Whether `p` occurs as a contiguous sublist of `s`. -/
def containsSub (s p : List Char) : Bool :=
  (findSub s p).isSome

/-- Concatenation of a list of byte lists. -/
def catList : List (List Char) → List Char
  | [] => []
  | x :: xs => x ++ catList xs

/-- The last `some` element of a list of options, if any. -/
def lastSome {α : Type} : List (Option α) → Option α
  | [] => none
  | o :: rest =>
    match lastSome rest with
    | some v => some v
    | none => o

/-- Index of the first element satisfying `p` (the C linear scans). -/
def firstIdx {α : Type} (p : α → Bool) : List α → Option Nat
  | [] => none
  | a :: l => if p a then some 0 else (firstIdx p l).map (· + 1)

/-- Element `n` of the list, or the default `d` when out of range. -/
def nthD {α : Type} (d : α) : List α → Nat → α
  | [], _ => d
  | a :: _, 0 => a
  | _ :: l, n + 1 => nthD d l n

/-- Replace the `n`-th element of the list (no-op when out of range). -/
def setNth {α : Type} : List α → Nat → α → List α
  | [], _, _ => []
  | _ :: l, 0, v => v :: l
  | a :: l, n + 1, v => a :: setNth l n v

/-! ## Constants from main.c -/

def MIN_PGN : Nat := 59391
def MAX_PGN : Nat := 131000
def ACTISENSE_BEM : Nat := 0x400000
def ACTISENSE_RNG : Nat := 0x100

def SENSOR_TIMEOUT : Int := 120
def AIS_TIMEOUT : Int := 3600
def SONICHUB_TIMEOUT : Int := 3600 * 24 * 31

/-- Dense index of a PGN (the `PrnToIdx` macro), `-1` when unsupported.  The
subtraction is C `int` arithmetic, so the result is an `Int` and can be
negative for small PGNs. -/
def PrnToIdx (prn : Nat) : Int :=
  if prn ≤ MAX_PGN then (prn : Int) - (MIN_PGN : Int)
  else if prn ≤ ACTISENSE_BEM + ACTISENSE_RNG then (prn : Int) - (ACTISENSE_BEM : Int)
  else -1

/-! ## Record parser: src/dst/prn extraction -/

def fieldsLit : List Char := "\"fields\":".toList
def tsLit : List Char := "\x7b\"timestamp".toList
def endLit : List Char := "\x7d\x7d".toList
def srcLit : List Char := "\"src\":".toList
def dstLit : List Char := "\",\"dst\":\"".toList
def pgnLit : List Char := "\",\"pgn\":\"".toList
def descLit : List Char := "\"description\":".toList

/-- Test `memcmp(readLine + r - 2, ...) == 0`: the line ends in two
closing braces.  (The length guard mirrors that the C read is only reachable
for lines long enough to have passed the earlier checks.) -/
def endsOk (line : List Char) : Bool :=
  decide (2 ≤ line.length) && line.drop (line.length - 2) == endLit

/-- Value of a list of decimal digits. -/
def digitsToNat (ds : List Char) : Nat :=
  ds.foldl (fun a c => a * 10 + (c.toNat - 48)) 0

/-- Read an unsigned decimal number from the head of the list (`%u`).  Fails
when no digit is present (sscanf matching failure, after which the C variables
stay uninitialized; the model treats that undefined-behaviour path as a
rejected line). -/
def readNat (s : List Char) : Option (Nat × List Char) :=
  let ds := s.takeWhile Char.isDigit
  if ds.isEmpty then none
  else some (digitsToNat ds, s.dropWhile Char.isDigit)

/-- Drop a literal from the head of the list, or fail. -/
def dropLit (lit s : List Char) : Option (List Char) :=
  if hasLead s lit then some (s.drop lit.length) else none

/-- The `sscanf(s + sizeof("\"src\":"), "%u\",\"dst\":\"%u\",\"pgn\":\"%u\"",
...)` extraction: locate `"src":`, skip 7 bytes (the 6 literal characters plus
one more, because sizeof counts the NUL), then read the three numbers. -/
def parseSrcDstPrn (line : List Char) : Option (Nat × Nat × Nat) :=
  match findSub line srcLit with
  | none => none
  | some pos =>
    match readNat (line.drop (pos + 7)) with
    | none => none
    | some (src, t1) =>
      match dropLit dstLit t1 with
      | none => none
      | some t2 =>
        match readNat t2 with
        | none => none
        | some (dst, t3) =>
          match dropLit pgnLit t3 with
          | none => none
          | some t4 =>
            match readNat t4 with
            | none => none
            | some (prn, _) => some (src, dst, prn)

/-! ## Secondary-key scan -/

def secondaryKeyList : List (List Char) :=
  [ "Instance\"".toList
  , "\"Reference\"".toList
  , "\"Message ID\"".toList
  , "\"User ID\"".toList
  , "\"Proprietary ID\"".toList ]

def secondaryKeyTimeout : List Int :=
  [SENSOR_TIMEOUT, SENSOR_TIMEOUT, AIS_TIMEOUT, AIS_TIMEOUT, SENSOR_TIMEOUT, SENSOR_TIMEOUT]

/-- SKIP_CHARACTERS: bytes between a key name and its value. -/
def isSkipChar (c : Char) : Bool :=
  c == '"' || c == ':' || c == ' '

/-- Loop `while (strchr(SKIP_CHARACTERS, *s)) s++;` -/
def skipSep : List Char → List Char
  | [] => []
  | c :: s => if isSkipChar c then skipSep s else c :: s

/-- The pointer dance `if (!e || e2 < e) e = e2;`.  A NULL pointer compares
below any valid pointer, so when `e2` is NULL and `e` is not, `e` becomes
NULL. -/
def resolveEnd (e e2 : Option Nat) : Option Nat :=
  match e with
  | none => e2
  | some pe =>
    match e2 with
    | none => none
    | some pe2 => if pe2 < pe then some pe2 else some pe

/-- Extract a secondary-key value from `rest`, the bytes following the matched
key name: skip separators, then cut at the resolved end position (falling back
to the whole remainder when the resolved end is NULL). -/
def extractAfter (rest : List Char) : List Char :=
  let sk := skipSep rest
  match resolveEnd (findChar sk ' ') (findChar sk '"') with
  | none => sk
  | some p => sk.take p

/-- The extraction the spec describes: the text up to the first space or the
first double-quote, whichever comes first (whole remainder when neither
occurs). -/
def valueUpTo (rest : List Char) : List Char :=
  let sk := skipSep rest
  match findChar sk ' ', findChar sk '"' with
  | some a, some b => sk.take (min a b)
  | some a, none => sk.take a
  | none, some b => sk.take b
  | none, none => sk

/-- Value extracted for one table key, when that key occurs in the line. -/
def extractForKey (line key : List Char) : Option (List Char) :=
  (findSub line key).map (fun pos => extractAfter (line.drop (pos + key.length)))

/-- The `for (k = 0; ...)` loop over `secondaryKeyList`: each match overwrites
`key2`; `k` leaves the loop equal to the number of table entries. -/
def scanKeysAux (line : List Char) :
    List (List Char) → Option (List Char) → Nat → Option (List Char) × Nat
  | [], key2, k => (key2, k)
  | key :: rest, key2, k =>
    match findSub line key with
    | none => scanKeysAux line rest key2 (k + 1)
    | some pos => scanKeysAux line rest (some (extractAfter (line.drop (pos + key.length)))) (k + 1)

def scanKeys (line : List Char) : Option (List Char) × Nat :=
  scanKeysAux line secondaryKeyList none 0

/-- Expiry selection: PGN overrides first, otherwise `secondaryKeyTimeout[k]`
for the `k` left behind by the scan loop. -/
def timeoutFor (prn : Nat) (k : Nat) : Int :=
  if prn == 126996 then AIS_TIMEOUT
  else if prn == 130816 then SONICHUB_TIMEOUT
  else secondaryKeyTimeout.getD k 0

/-! ## The message store -/

structure Message where
  m_src : Nat
  m_key2 : Option (List Char)
  m_time : Int
  m_text : List Char
deriving Repr, DecidableEq

def mDefault : Message := ⟨0, none, 0, []⟩

structure Pgn where
  p_prn : Nat
  p_description : Option (List Char)
  p_message : List Message
deriving Repr, DecidableEq

/-- Combined `pgnIdx` and `pgnList`: association list from dense index to entry,
kept in first-observation order (the order of `pgnList`).  `p_maxSrc` is the
length of `p_message`, which the C code keeps in lockstep with the allocated
array. -/
structure Store where
  entries : List (Nat × Pgn)
deriving Repr, DecidableEq

structure ProcState where
  store : Store
  acc : List Char
deriving Repr, DecidableEq

def procInit : ProcState := ⟨⟨[]⟩, []⟩

inductive StepResult where
  | abort : StepResult
  | ok : ProcState → StepResult
deriving Repr, DecidableEq

def lookupEntry : List (Nat × Pgn) → Nat → Option Pgn
  | [], _ => none
  | (j, p) :: rest, idx => if j == idx then some p else lookupEntry rest idx

def writeBack (entries : List (Nat × Pgn)) (idx : Nat) (pgn : Pgn) : List (Nat × Pgn) :=
  entries.map (fun q => if q.1 == idx then (idx, pgn) else q)

/-- The matching test of the `/* Find existing key */` loop: source addresses
equal (stored `uint8_t` against the full parsed `int`), and a stored NULL key
matches anything while a stored key matches only an equal new key. -/
def keyMatches (stored newKey : Option (List Char)) : Bool :=
  match stored with
  | none => true
  | some sk =>
    match newKey with
    | none => false
    | some nk => sk == nk

/-- Slot update of `handleMessageByte`: find an existing `(src, key2)` slot,
else reuse the first expired slot, else grow by one; then overwrite text and
expiry.  The stored source address is the C cast `(uint8_t) src`. -/
def insertSlot (msgs : List Message) (now : Int) (line : List Char) (src : Nat)
    (key2 : Option (List Char)) (valid : Int) : List Message :=
  match firstIdx (fun m => m.m_src == src && keyMatches m.m_key2 key2) msgs with
  | some i =>
    let old := nthD mDefault msgs i
    setNth msgs i { old with m_text := line, m_time := now + valid }
  | none =>
    match firstIdx (fun m => decide (m.m_time < now)) msgs with
    | some i =>
      let old := nthD mDefault msgs i
      setNth msgs i { old with m_src := src % 256, m_key2 := key2, m_text := line, m_time := now + valid }
    | none =>
      msgs ++ [{ m_src := src % 256, m_key2 := key2, m_time := now + valid, m_text := line }]

/-- Description capture.  Returns the updated entry and a flag marking the
`return` taken when no end of the description is found (that path leaves the
entry registered, with `p_prn` written, and skips the message insertion). -/
def updatePgnDescription (pgn : Pgn) (prn : Nat) (line : List Char) : Pgn × Bool :=
  if pgn.p_description.isSome then (pgn, false)
  else
    let pgn1 := { pgn with p_prn := prn }
    match findSub line descLit with
    | none => (pgn1, false)
    | some pos =>
      let s := line.drop (pos + 15)
      match resolveEnd (findChar s ':') (findChar s '"') with
      | none => (pgn1, true)
      | some e => ({ pgn1 with p_description := some (s.take e) }, false)

/-- Description phase plus slot insertion for the entry at `idx`. -/
def finishInsert (ps : ProcState) (now : Int) (line : List Char) (prn src : Nat)
    (key2 : Option (List Char)) (k : Nat) (idx : Nat) (pgn : Pgn) : StepResult :=
  match updatePgnDescription pgn prn line with
  | (pgn1, true) => .ok { ps with store := ⟨writeBack ps.store.entries idx pgn1⟩ }
  | (pgn1, false) =>
    let valid := timeoutFor prn k
    let msgs := insertSlot pgn1.p_message now line src key2 valid
    .ok { ps with store := ⟨writeBack ps.store.entries idx { pgn1 with p_message := msgs }⟩ }

/-- Store half of `handleMessageByte`: look the PGN up in the dense index,
registering a fresh zeroed entry at the back of the ordered list when absent
(fatal when the 512-entry list is full). -/
def insertIntoStore (ps : ProcState) (now : Int) (line : List Char) (prn src : Nat)
    (key2 : Option (List Char)) (k : Nat) (idx : Nat) : StepResult :=
  match lookupEntry ps.store.entries idx with
  | some pgn => finishInsert ps now line prn src key2 k idx pgn
  | none =>
    if ps.store.entries.length == 512 then .abort
    else
      let fresh : Pgn := ⟨0, none, []⟩
      finishInsert { ps with store := ⟨ps.store.entries ++ [(idx, fresh)]⟩ }
        now line prn src key2 k idx fresh

/-- Processing of one completed line (the body of `handleMessageByte` after
line assembly).  Rejected lines leave the state untouched; `logAbort` paths
return `abort`.  Note that the raw line is appended to the broadcast
accumulator before the index-range abort check, and that the line carries no
terminating newline (the newline byte never enters `readLine`). -/
def processLine (ps : ProcState) (now : Int) (line : List Char) : StepResult :=
  if ¬ containsSub line fieldsLit then .ok ps
  else if ¬ hasLead line tsLit then .ok ps
  else if ¬ endsOk line then .ok ps
  else
    match parseSrcDstPrn line with
    | none => .ok ps
    | some (src, _dst, prn) =>
      if prn == 0 || src == 0 then .ok ps
      else if MAX_PGN < prn then .ok ps
      else
        let scanned := scanKeys line
        let ps1 : ProcState := { ps with acc := ps.acc ++ line }
        if PrnToIdx prn < 0 then .abort
        else insertIntoStore ps1 now line prn src scanned.1 scanned.2 (PrnToIdx prn).toNat

/-- Two consecutive insertions of the same line. -/
def processLine2 (ps : ProcState) (now : Int) (line : List Char) : StepResult :=
  match processLine ps now line with
  | .abort => .abort
  | .ok ps1 => processLine ps1 now line

/-! ## Byte-at-a-time line assembly -/

/-- One input byte: append while not a newline and the 4096-byte buffer has
room, otherwise process the assembled line (the newline itself is discarded;
on a full buffer the overflowing byte is dropped). -/
def handleMessageByte (buf : List Char) (ps : ProcState) (now : Int) (c : Char) :
    Option (List Char × ProcState) :=
  if ¬ c == '\n' && buf.length < 4096 then some (buf ++ [c], ps)
  else
    match processLine ps now buf with
    | .abort => none
    | .ok ps1 => some ([], ps1)

def feedBytes (buf : List Char) (ps : ProcState) (now : Int) :
    List Char → Option (List Char × ProcState)
  | [] => some (buf, ps)
  | c :: rest =>
    match handleMessageByte buf ps now c with
    | none => none
    | some (b1, ps1) => feedBytes b1 ps1 now rest

/-- The lines the byte feeder completes, and the leftover partial buffer. -/
def lineSplit : List Char → List Char → List (List Char) × List Char
  | buf, [] => ([], buf)
  | buf, c :: rest =>
    if ¬ c == '\n' && buf.length < 4096 then lineSplit (buf ++ [c]) rest
    else
      let r := lineSplit [] rest
      (buf :: r.1, r.2)

/-- Whether a completed line reaches `appendJSONMessage`: all framing checks
pass, the triplet parses, and src, prn are nonzero with prn within `MAX_PGN`. -/
def lineAppends (line : List Char) : Bool :=
  containsSub line fieldsLit && hasLead line tsLit && endsOk line &&
    match parseSrcDstPrn line with
    | none => false
    | some (src, _dst, prn) => ¬ (prn == 0 || src == 0) && ¬ decide (MAX_PGN < prn)

/-! ## Snapshot serialization (getFullStateJSON) -/

/-- Rendering `snprintf(state + l, remain, "  ,%u%s%s:%s", ...)` of one slot. -/
def renderMessage (m : Message) : List Char :=
  "  ,\"".toList ++ (Nat.repr m.m_src).toList
    ++ (match m.m_key2 with
        | some k => '_' :: k
        | none => [])
    ++ "\":".toList ++ m.m_text ++ ['\n']

/-- Header `snprintf` of one PGN block: separator, PGN number, description. -/
def renderPgnHeader (sep : Char) (pgn : Pgn) (desc : List Char) : List Char :=
  sep :: '"' :: (Nat.repr pgn.p_prn).toList
    ++ "\":\n  \x7b\"description\":\"".toList ++ desc ++ "\"\n".toList

/-- The inner `for (s = 0; s < pgn->p_maxSrc; s++)` loop: emit each
non-expired slot in insertion order. -/
def emitMessages (now : Int) : List Message → List Char
  | [] => []
  | m :: rest => (if now ≤ m.m_time then renderMessage m else []) ++ emitMessages now rest

/-- One PGN block.  A missing description means the C code calls
`strlen(NULL)`: that undefined behaviour is modelled as `none`. -/
def renderPgn (sep : Char) (now : Int) (pgn : Pgn) : Option (List Char) :=
  match pgn.p_description with
  | none => none
  | some d => some (renderPgnHeader sep pgn d ++ emitMessages now pgn.p_message ++ "  \x7d\n".toList)

/-- The outer loop over `pgnList`, threading the separator character. -/
def renderEntries (now : Int) : List (Nat × Pgn) → Char → Option (List Char)
  | [], sep => some (if sep == ',' then "\x7d\n".toList else "\n".toList)
  | (_, pgn) :: rest, sep =>
    match renderPgn sep now pgn with
    | none => none
    | some piece =>
      match renderEntries now rest ',' with
      | none => none
      | some tail => some (piece ++ tail)

def getFullStateJSON (store : Store) (now : Int) : Option (List Char) :=
  renderEntries now store.entries '{'

/-- Modelled from the spec's words (§4.2 Snapshot): iterate the secondary list
in first-observation order; within each PGN emit the slots whose
`expiresAt ≥ now`, in insertion order, skipping expired slots. -/
def specRenderEntries (now : Int) : List (Nat × Pgn) → Char → Option (List Char)
  | [], sep => some (if sep == ',' then "\x7d\n".toList else "\n".toList)
  | (_, pgn) :: rest, sep =>
    match pgn.p_description with
    | none => none
    | some d =>
      match specRenderEntries now rest ',' with
      | none => none
      | some tail =>
        some (renderPgnHeader sep pgn d
          ++ catList (((pgn.p_message.filter (fun m => decide (now ≤ m.m_time))).map renderMessage))
          ++ "  \x7d\n".toList ++ tail)

def specSnapshot (store : Store) (now : Int) : Option (List Char) :=
  specRenderEntries now store.entries '{'

/-! ## Client-request reading and stream promotion (handleClientRequest) -/

inductive ClKind where
  | snapshot
  | jstream
deriving Repr, DecidableEq

def promoMarker : List Char := ['-', '\n']

/-- The promotion test: a newline is present in the buffer (`strchr`) and the
two-byte marker occurs anywhere in the buffer (`strstr`). -/
def clientPromotes (buf : List Char) : Bool :=
  match findChar buf '\n' with
  | none => false
  | some _ => containsSub buf promoMarker

/-- Effect of the promotion branch on the client: type becomes JSON-stream and
the buffered data is discarded (`stream[i].len = 0`).  The non-promoting
branch forwards the buffered line to stdout and is out of scope here: type and
buffer are left as they were. -/
def clientReadUpdate (buf : List Char) (kind : ClKind) : ClKind × List Char :=
  if clientPromotes buf then (ClKind.jstream, []) else (kind, buf)

/-! ## Write phase for snapshot clients (writeAllClients, CLIENT_JSON arm) -/

structure SnapClient where
  opn : Bool
  kind : ClKind
  deadline : Int
deriving Repr, DecidableEq

structure WPhase where
  ready : Bool
  now : Int
deriving Repr, DecidableEq

/-- One write phase for one client, returning the new client state and the
number of snapshots sent (0 or 1).  Mirrors `writeAllClients`: a
write-interested client that is not ready is closed; a snapshot client whose
deadline passed is sent the state and then — because the inner
`type == CLIENT_JSON_STREAM` test inside the `CLIENT_JSON` arm can never be
true — closed.  Stream clients are sent the accumulator, not the snapshot. -/
def clientWritePhase (c : SnapClient) (ph : WPhase) : SnapClient × Nat :=
  if ¬ c.opn then (c, 0)
  else if ¬ ph.ready then ({ c with opn := false }, 0)
  else
    match c.kind with
    | .snapshot =>
      if c.deadline ≠ 0 ∧ c.deadline < ph.now then
        if c.kind == ClKind.jstream then ({ c with deadline := ph.now + 500 }, 1)
        else ({ c with opn := false }, 1)
      else (c, 0)
    | .jstream => (c, 0)

def runWritePhases (c : SnapClient) : List WPhase → SnapClient × Nat
  | [] => (c, 0)
  | ph :: rest =>
    let r1 := clientWritePhase c ph
    let r2 := runWritePhases r1.1 rest
    (r2.1, r1.2 + r2.2)

/-! ## Stream-client delivery across engine ticks -/

structure StreamCl where
  opn : Bool
  received : List Char
deriving Repr, DecidableEq

/-- Input of one engine tick: the wall clock, the bytes arriving on stdin,
whether the stream client polls writable, and `cut = some n` when the `send`
is short and delivers only `n` bytes (`none` = full delivery). -/
structure TickIn where
  now : Int
  bytes : List Char
  ready : Bool
  cut : Option Nat
deriving Repr, DecidableEq

/-- The `CLIENT_JSON_STREAM` arm of `writeAllClients` for one client: a
write-interested client that is not ready is closed; otherwise, when the
accumulator is non-empty it is sent.  A short write is not detected there (the
`send` result is ignored), so the client stays open with a partial record. -/
def streamTickClient (c : StreamCl) (acc : List Char) (t : TickIn) : StreamCl :=
  if ¬ c.opn then c
  else if ¬ t.ready then { c with opn := false }
  else if acc.isEmpty then c
  else
    match t.cut with
    | none => { c with received := c.received ++ acc }
    | some n => { c with received := c.received ++ acc.take n }

structure EngineState where
  parser : List Char
  ps : ProcState
  client : StreamCl
deriving Repr, DecidableEq

/-- One loop iteration of `doServerWork` restricted to the input stream and
one JSON-stream client: feed the arriving bytes through the parser, send the
accumulator to the client, then clear the accumulator (`currentLen = 0`). -/
def engineTick (s : EngineState) (t : TickIn) : Option EngineState :=
  match feedBytes s.parser s.ps t.now t.bytes with
  | none => none
  | some (p1, ps1) =>
    let c1 := streamTickClient s.client ps1.acc t
    some ⟨p1, { ps1 with acc := [] }, c1⟩

def engineRun (s : EngineState) : List TickIn → Option EngineState
  | [] => some s
  | t :: ts =>
    match engineTick s t with
    | none => none
    | some s1 => engineRun s1 ts

/-- All lines completed across a run, threading the parser buffer. -/
def linesOfTicks (buf : List Char) : List TickIn → List (List Char)
  | [] => []
  | t :: ts =>
    let r := lineSplit buf t.bytes
    r.1 ++ linesOfTicks r.2 ts

/-! ## Projection helpers for concrete evaluations -/

def resultState (r : StepResult) : Option ProcState :=
  match r with
  | .abort => none
  | .ok ps => some ps

def storedTimes (r : StepResult) (idx : Nat) : Option (List Int) :=
  (resultState r).bind fun ps =>
    (lookupEntry ps.store.entries idx).map fun p => p.p_message.map Message.m_time

def storedSrcs (r : StepResult) (idx : Nat) : Option (List Nat) :=
  (resultState r).bind fun ps =>
    (lookupEntry ps.store.entries idx).map fun p => p.p_message.map Message.m_src

def storedDescr (r : StepResult) (idx : Nat) : Option (Option (List Char)) :=
  (resultState r).bind fun ps =>
    (lookupEntry ps.store.entries idx).map fun p => p.p_description

/-! ## Helper lemmas on the list utilities -/

theorem setNth_length {α : Type} (l : List α) (i : Nat) (v : α) :
    (setNth l i v).length = l.length := by
  induction l generalizing i with
  | nil => simp [setNth]
  | cons a t ih =>
    cases i with
    | zero => simp [setNth]
    | succ j => simp [setNth, ih]

theorem nthD_setNth_self {α : Type} (d : α) (l : List α) (i : Nat) (v : α)
    (h : i < l.length) : nthD d (setNth l i v) i = v := by
  induction l generalizing i with
  | nil => simp at h
  | cons a t ih =>
    cases i with
    | zero => simp [setNth, nthD]
    | succ j =>
      simp [setNth, nthD]
      exact ih j (by simpa using h)

theorem firstIdx_lt_length {α : Type} (p : α → Bool) (l : List α) (i : Nat)
    (h : firstIdx p l = some i) : i < l.length := by
  induction l generalizing i with
  | nil => simp [firstIdx] at h
  | cons a t ih =>
    by_cases hp : p a
    · simp [firstIdx, hp] at h
      simp [← h]
    · simp [firstIdx, hp] at h
      rcases h with ⟨j, hj, rfl⟩
      have := ih j hj
      simp only [List.length_cons]
      omega

theorem firstIdx_append_of_none {α : Type} (p : α → Bool) (l : List α) (a : α)
    (h : firstIdx p l = none) :
    firstIdx p (l ++ [a]) = if p a then some l.length else none := by
  induction l with
  | nil => simp [firstIdx]
  | cons b t ih =>
    by_cases hp : p b
    · simp [firstIdx, hp] at h
    · simp [firstIdx, hp] at h
      by_cases ha : p a
      · simp [firstIdx, hp, ih h, ha]
      · simp [firstIdx, hp, ih h, ha]

theorem nthD_append_length {α : Type} (d : α) (l : List α) (a : α) :
    nthD d (l ++ [a]) l.length = a := by
  induction l with
  | nil => simp [nthD]
  | cons b t ih => simpa [nthD] using ih

theorem catList_append (a b : List (List Char)) :
    catList (a ++ b) = catList a ++ catList b := by
  induction a with
  | nil => simp [catList]
  | cons x xs ih => simp [catList, ih]

/-! ## Claim C4: the snapshot filters expired slots, preserving order -/

theorem emitMessages_eq_filter (now : Int) (msgs : List Message) :
    emitMessages now msgs
      = catList ((msgs.filter (fun m => decide (now ≤ m.m_time))).map renderMessage) := by
  induction msgs with
  | nil => simp [emitMessages, catList]
  | cons m rest ih =>
    by_cases hm : now ≤ m.m_time
    · simp [emitMessages, List.filter, hm, catList, ih]
    · simp [emitMessages, List.filter, hm, catList, ih]

theorem renderEntries_eq_spec (now : Int) (l : List (Nat × Pgn)) (sep : Char) :
    renderEntries now l sep = specRenderEntries now l sep := by
  induction l generalizing sep with
  | nil => rfl
  | cons q rest ih =>
    obtain ⟨i, pgn⟩ := q
    cases hd : pgn.p_description with
    | none => simp [renderEntries, specRenderEntries, renderPgn, hd]
    | some d =>
      simp only [renderEntries, specRenderEntries, renderPgn, hd, ih]
      cases ht : specRenderEntries now rest ',' with
      | none => rfl
      | some tail => simp [emitMessages_eq_filter, List.append_assoc]

/-- C4: a snapshot serialized at time `now` is exactly the spec-side
serialization that keeps, per PGN in first-observation order, only the slots
with `expiresAt ≥ now`, in insertion order: expired slots are omitted and
live ones are all included. -/
theorem c4_snapshot_filters_expired (store : Store) (now : Int) :
    getFullStateJSON store now = specSnapshot store now :=
  renderEntries_eq_spec now store.entries '{'

/-! ## Claim C8: a snapshot-type client gets at most one snapshot, then closes -/

theorem clientWritePhase_closed (c : SnapClient) (ph : WPhase) (h : c.opn = false) :
    clientWritePhase c ph = (c, 0) := by
  simp [clientWritePhase, h]

theorem runWritePhases_closed (c : SnapClient) (phs : List WPhase) (h : c.opn = false) :
    runWritePhases c phs = (c, 0) := by
  induction phs with
  | nil => rfl
  | cons ph rest ih => simp [runWritePhases, clientWritePhase_closed c ph h, ih]

theorem runWritePhases_snapshot (c : SnapClient) (phs : List WPhase)
    (hk : c.kind = ClKind.snapshot) :
    (runWritePhases c phs).2 ≤ 1
      ∧ ((runWritePhases c phs).2 = 1 → ((runWritePhases c phs).1).opn = false) := by
  induction phs generalizing c with
  | nil => simp [runWritePhases]
  | cons ph rest ih =>
    by_cases ho : c.opn
    · by_cases hr : ph.ready
      · by_cases hdl : c.deadline ≠ 0 ∧ c.deadline < ph.now
        · have hstep : clientWritePhase c ph = ({ c with opn := false }, 1) := by
            simp [clientWritePhase, ho, hr, hk, hdl]
          have hrest : runWritePhases { c with opn := false } rest
              = ({ c with opn := false }, 0) := runWritePhases_closed _ _ rfl
          simp [runWritePhases, hstep, hrest]
        · have hstep : clientWritePhase c ph = (c, 0) := by
            simp [clientWritePhase, ho, hr, hk, hdl]
          simpa [runWritePhases, hstep] using ih c hk
      · have hstep : clientWritePhase c ph = ({ c with opn := false }, 0) := by
          simp [clientWritePhase, ho, hr]
        have hrest : runWritePhases { c with opn := false } rest
            = ({ c with opn := false }, 0) := runWritePhases_closed _ _ rfl
        simp [runWritePhases, hstep, hrest]
    · have ho' : c.opn = false := by simpa using ho
      simp [runWritePhases, clientWritePhase_closed c ph ho',
        runWritePhases_closed c rest ho']

/-- C8: over any sequence of write phases, a client that stays snapshot-typed
is sent at most one full snapshot, and after any run prefix in which the
snapshot was sent the client is already closed (it closes in the same write
phase that sends it, and is never sent a second snapshot). -/
theorem c8_snapshot_once (c : SnapClient) (l1 l2 : List WPhase)
    (hk : c.kind = ClKind.snapshot) :
    (runWritePhases c (l1 ++ l2)).2 ≤ 1
      ∧ ((runWritePhases c l1).2 = 1 → ((runWritePhases c l1).1).opn = false) :=
  ⟨(runWritePhases_snapshot c (l1 ++ l2) hk).1,
   (runWritePhases_snapshot c l1 hk).2⟩

/-- Witness for C8 at a concrete client and phase lists. -/
theorem c8_snapshot_once_witness :
    (runWritePhases ⟨true, ClKind.snapshot, 1⟩
        ([⟨true, 1000⟩] ++ [⟨true, 2000⟩, ⟨true, 3000⟩])).2 ≤ 1
      ∧ ((runWritePhases ⟨true, ClKind.snapshot, 1⟩ [⟨true, 1000⟩]).2 = 1 →
          ((runWritePhases ⟨true, ClKind.snapshot, 1⟩ [⟨true, 1000⟩]).1).opn = false) :=
  c8_snapshot_once ⟨true, ClKind.snapshot, 1⟩ [⟨true, 1000⟩] [⟨true, 2000⟩, ⟨true, 3000⟩] rfl

/-! ## Concrete input lines used by the boundary and bug evaluations -/

def lineC1 : List Char :=
  "\x7b\"timestamp\":\"t\",\"src\":\"43\",\"dst\":\"255\",\"pgn\":\"129038\",\"description\":\"AIS\",\"fields\":\x7b\"Message ID\":\"1\"\x7d\x7d".toList

def lineActi : List Char :=
  "\x7b\"timestamp\":\"t\",\"src\":\"1\",\"dst\":\"255\",\"pgn\":\"4194304\",\"fields\":\x7b\"A\":1\x7d\x7d".toList

def line257 : List Char :=
  "\x7b\"timestamp\":\"t\",\"src\":\"257\",\"dst\":\"255\",\"pgn\":\"60000\",\"fields\":\x7b\"A\":1\x7d\x7d".toList

def lineNoDesc : List Char :=
  "\x7b\"timestamp\":\"t\",\"src\":\"1\",\"dst\":\"255\",\"pgn\":\"60000\",\"fields\":\x7b\"A\":1\x7d\x7d".toList

def lineC6 : List Char :=
  "\x7b\"timestamp\":\"t\",\"src\":\"9\",\"dst\":\"255\",\"pgn\":\"127508\",\"fields\":\x7b\"Instance\":\"7\",\"User ID\":\"42\"\x7d\x7d".toList

def lineOk : List Char :=
  "\x7b\"timestamp\":\"t\",\"src\":\"2\",\"dst\":\"255\",\"pgn\":\"129025\",\"fields\":\x7b\"B\":2\x7d\x7d".toList

def lineB1 : List Char :=
  "\x7b\"timestamp\":\"t\",\"src\":\"3\",\"dst\":\"255\",\"pgn\":\"59391\",\"fields\":\x7b\"C\":3\x7d\x7d".toList

/-! ## Claim C7: re-inserting an identical record overwrites in place -/

/-- C7: when the slot scan finds slot `i` and that slot already holds exactly
the raw line being inserted, insertion only refreshes the expiry of slot `i`:
the message count (maxSrc) is unchanged and every slot's src, key and text —
in particular the stored text, byte for byte — are unchanged. -/
theorem c7_reinsert_in_place (msgs : List Message) (now : Int) (line : List Char)
    (src : Nat) (key2 : Option (List Char)) (valid : Int) (i : Nat)
    (hfind : firstIdx (fun m => m.m_src == src && keyMatches m.m_key2 key2) msgs = some i)
    (htext : (nthD mDefault msgs i).m_text = line) :
    (insertSlot msgs now line src key2 valid).length = msgs.length
  ∧ insertSlot msgs now line src key2 valid
      = setNth msgs i { nthD mDefault msgs i with m_time := now + valid }
  ∧ (nthD mDefault (insertSlot msgs now line src key2 valid) i).m_text
      = (nthD mDefault msgs i).m_text := by
  have hlt : i < msgs.length := firstIdx_lt_length _ _ _ hfind
  have hset : insertSlot msgs now line src key2 valid
      = setNth msgs i { nthD mDefault msgs i with m_text := line, m_time := now + valid } := by
    simp [insertSlot, hfind]
  have heq : ({ nthD mDefault msgs i with m_text := line, m_time := now + valid } : Message)
      = { nthD mDefault msgs i with m_time := now + valid } := by
    rw [← htext]
  rw [hset, heq]
  refine ⟨setNth_length _ _ _, rfl, ?_⟩
  rw [nthD_setNth_self _ _ _ _ hlt]

/-- Witness for C7: a store with one matching slot holding the same line. -/
theorem c7_reinsert_in_place_witness :
    (insertSlot [⟨5, some ['1'], 2000, ['x']⟩] 1000 ['x'] 5 (some ['1']) 120).length
        = [(⟨5, some ['1'], 2000, ['x']⟩ : Message)].length
  ∧ insertSlot [⟨5, some ['1'], 2000, ['x']⟩] 1000 ['x'] 5 (some ['1']) 120
      = setNth [⟨5, some ['1'], 2000, ['x']⟩] 0
          { nthD mDefault [⟨5, some ['1'], 2000, ['x']⟩] 0 with m_time := 1000 + 120 }
  ∧ (nthD mDefault (insertSlot [⟨5, some ['1'], 2000, ['x']⟩] 1000 ['x'] 5 (some ['1']) 120) 0).m_text
      = (nthD mDefault [⟨5, some ['1'], 2000, ['x']⟩] 0).m_text :=
  c7_reinsert_in_place [⟨5, some ['1'], 2000, ['x']⟩] 1000 ['x'] 5 (some ['1']) 120 0
    (by decide) (by decide)

/-! ## Claim C9: src range, truncation, and duplicate lookup -/

/-- C9 counterexample: the line with `"src":"257"` parses to src = 257, is
accepted (records are created for it), the slot records `257 mod 256 = 1`,
and re-inserting the identical line fails to find the slot again: the PGN
ends up with two slots `[1, 1]` instead of one. -/
theorem c9_src_truncation :
    parseSrcDstPrn line257 = some (257, 255, 60000)
  ∧ storedSrcs (processLine2 procInit 1000 line257) 609 = some [1, 1] := by
  constructor
  · rfl
  · rfl

/-- C9 amended: for a parsed src in 1..255 (with no matching and no expired
slot, so a fresh slot is created), the recorded source address equals the
parsed src, and a second insertion with the same src and key finds that very
slot, leaving the slot count unchanged. -/
theorem c9_src_range_lookup (msgs : List Message) (now now2 : Int) (line : List Char)
    (src : Nat) (key2 : Option (List Char)) (valid valid2 : Int)
    (h1 : 1 ≤ src) (h2 : src ≤ 255)
    (h3 : firstIdx (fun m => m.m_src == src && keyMatches m.m_key2 key2) msgs = none)
    (h4 : firstIdx (fun m => decide (m.m_time < now)) msgs = none) :
    (insertSlot msgs now line src key2 valid).length = msgs.length + 1
  ∧ (nthD mDefault (insertSlot msgs now line src key2 valid) msgs.length).m_src = src
  ∧ firstIdx (fun m => m.m_src == src && keyMatches m.m_key2 key2)
      (insertSlot msgs now line src key2 valid) = some msgs.length
  ∧ (insertSlot (insertSlot msgs now line src key2 valid) now2 line src key2 valid2).length
      = (insertSlot msgs now line src key2 valid).length := by
  have hmod : src % 256 = src := Nat.mod_eq_of_lt (by omega)
  have hgrow : insertSlot msgs now line src key2 valid
      = msgs ++ [⟨src % 256, key2, now + valid, line⟩] := by
    simp [insertSlot, h3, h4]
  have hpred : ((⟨src % 256, key2, now + valid, line⟩ : Message).m_src == src
      && keyMatches (⟨src % 256, key2, now + valid, line⟩ : Message).m_key2 key2) = true := by
    cases key2 <;> simp [hmod, keyMatches]
  have hfind1 : firstIdx (fun m => m.m_src == src && keyMatches m.m_key2 key2)
      (msgs ++ [⟨src % 256, key2, now + valid, line⟩]) = some msgs.length := by
    rw [firstIdx_append_of_none _ _ _ h3]
    simp only [hpred, if_true]
  refine ⟨?_, ?_, ?_, ?_⟩
  · rw [hgrow]; simp
  · rw [hgrow, nthD_append_length]; exact hmod
  · rw [hgrow]; exact hfind1
  · rw [hgrow, insertSlot, hfind1]
    exact setNth_length _ _ _

/-- Witness for C9 at a fresh store and src = 7. -/
theorem c9_src_range_lookup_witness :
    (insertSlot [] 1000 ['y'] 7 none 120).length = List.length ([] : List Message) + 1
  ∧ (nthD mDefault (insertSlot [] 1000 ['y'] 7 none 120) (List.length ([] : List Message))).m_src = 7
  ∧ firstIdx (fun m => m.m_src == 7 && keyMatches m.m_key2 none)
      (insertSlot [] 1000 ['y'] 7 none 120) = some (List.length ([] : List Message))
  ∧ (insertSlot (insertSlot [] 1000 ['y'] 7 none 120) 1001 ['y'] 7 none 120).length
      = (insertSlot [] 1000 ['y'] 7 none 120).length :=
  c9_src_range_lookup [] 1000 1001 ['y'] 7 none 120 120
    (by decide) (by decide) (by decide) (by decide)

/-! ## Claim C1: the expiry class actually applied -/

/-- C1: the key-scan loop never records which table entry matched (`k` always
leaves the loop at the table length), so the stored expiry for the
`Message ID`-keyed AIS record is `now + SENSOR_TIMEOUT`, not the
`now + AIS_TIMEOUT` the claim requires for a `Message ID` match. -/
theorem c1_expiry_always_sensor :
    (scanKeys lineC1).1 = some ['1']
  ∧ storedTimes (processLine procInit 1000 lineC1) 69647 = some [1000 + SENSOR_TIMEOUT]
  ∧ storedTimes (processLine procInit 1000 lineC1) 69647 ≠ some [1000 + AIS_TIMEOUT] := by
  have h : storedTimes (processLine procInit 1000 lineC1) 69647
      = some [1000 + SENSOR_TIMEOUT] := rfl
  refine ⟨rfl, h, ?_⟩
  rw [h]
  decide

/-! ## Claim C10: a listed entry can have no description -/

/-- C10: a valid record for a fresh PGN whose line has no description field is
inserted and registered in the ordered list with `p_description` still NULL;
serializing the snapshot then reads that NULL description (modelled as the
serializer returning `none` for the undefined `strlen(NULL)`). -/
theorem c10_null_description_reachable :
    storedDescr (processLine procInit 1000 lineNoDesc) 609 = some none
  ∧ storedSrcs (processLine procInit 1000 lineNoDesc) 609 = some [1]
  ∧ (resultState (processLine procInit 1000 lineNoDesc)).map
      (fun ps => getFullStateJSON ps.store 1000) = some none := by
  exact ⟨rfl, rfl, rfl⟩

/-! ## Claim C3 counterexample: the Actisense band is unreachable -/

/-- C3 counterexample: a valid record with prn = 0x400000 is dropped by the
`prn > MAX_PGN` check before `PrnToIdx` is ever consulted — the state is
completely unchanged, even though the dense-index mapping itself would send
this PGN to index 0. -/
theorem c3_actisense_rejected :
    processLine procInit 1000 lineActi = StepResult.ok procInit
  ∧ PrnToIdx 4194304 = 0 := by
  exact ⟨rfl, by decide⟩

/-! ## Claim C6: which secondary key the scan loop selects -/

theorem scanKeysAux_spec (line : List Char) (keys : List (List Char))
    (key2 : Option (List Char)) (k : Nat) :
    (scanKeysAux line keys key2 k).1
      = (match lastSome (keys.map (extractForKey line)) with
         | some v => some v
         | none => key2)
  ∧ (scanKeysAux line keys key2 k).2 = k + keys.length := by
  induction keys generalizing key2 k with
  | nil => simp [scanKeysAux, lastSome]
  | cons key rest ih =>
    cases hf : findSub line key with
    | none =>
      have he : extractForKey line key = none := by simp [extractForKey, hf]
      rcases ih key2 (k + 1) with ⟨ih1, ih2⟩
      constructor
      · simp only [scanKeysAux, hf, List.map_cons, he, lastSome, ih1]
        cases lastSome (rest.map (extractForKey line)) <;> rfl
      · simp only [scanKeysAux, hf, ih2, List.length_cons]
        omega
    | some pos =>
      have he : extractForKey line key
          = some (extractAfter (line.drop (pos + key.length))) := by
        simp [extractForKey, hf]
      rcases ih (some (extractAfter (line.drop (pos + key.length)))) (k + 1) with ⟨ih1, ih2⟩
      constructor
      · simp only [scanKeysAux, hf, List.map_cons, he, lastSome, ih1]
        cases lastSome (rest.map (extractForKey line)) <;> rfl
      · simp only [scanKeysAux, hf, ih2, List.length_cons]
        omega

/-- C6 counterexample: `lineC6` matches both `Instance` (value `7`, the first
table match) and `User ID` (value `42`); the loop keeps the value of the last
match, `42`, not the claimed first match `7`. -/
theorem c6_first_match_not_selected :
    extractForKey lineC6 ("Instance\"".toList) = some ['7']
  ∧ (scanKeys lineC6).1 = some ['4', '2']
  ∧ (scanKeys lineC6).1 ≠ some ['7'] := by
  have h2 : (scanKeys lineC6).1 = some ['4', '2'] := rfl
  refine ⟨rfl, h2, ?_⟩
  rw [h2]
  decide

/-- C6 amended: when several secondary-key fields match, the scan loop keeps
the LAST match in table order (each later match overwrites the earlier), and
the extracted value is the text up to the first space or first double-quote,
whichever comes first — provided a double-quote occurs whenever a space does
(which holds for every well-formed line; when there is a space but no
double-quote the code takes the whole remainder instead). -/
theorem c6_last_match_wins (line rest : List Char)
    (h : findChar (skipSep rest) ' ' = none ∨ (findChar (skipSep rest) '"').isSome = true) :
    (scanKeys line).1 = lastSome (secondaryKeyList.map (extractForKey line))
  ∧ (scanKeys line).2 = secondaryKeyList.length
  ∧ extractAfter rest = valueUpTo rest := by
  refine ⟨?_, ?_, ?_⟩
  · have h1 := (scanKeysAux_spec line secondaryKeyList none 0).1
    rw [scanKeys, h1]
    cases lastSome (secondaryKeyList.map (extractForKey line)) <;> rfl
  · have h2 := (scanKeysAux_spec line secondaryKeyList none 0).2
    rw [scanKeys, h2]
    omega
  · cases he : findChar (skipSep rest) ' ' with
    | none =>
      cases he2 : findChar (skipSep rest) '"' with
      | none => simp [extractAfter, valueUpTo, resolveEnd, he, he2]
      | some b => simp [extractAfter, valueUpTo, resolveEnd, he, he2]
    | some a =>
      cases he2 : findChar (skipSep rest) '"' with
      | none =>
        rcases h with h | h
        · rw [he] at h; exact absurd h (by simp)
        · rw [he2] at h; exact absurd h (by simp)
      | some b =>
        by_cases hba : b < a
        · have hmin : min a b = b := by omega
          simp [extractAfter, valueUpTo, resolveEnd, he, he2, hba, hmin]
        · have hmin : min a b = a := by omega
          simp [extractAfter, valueUpTo, resolveEnd, he, he2, hba, hmin]

/-- Witness for C6 at the two-key line and a concrete value remainder. -/
theorem c6_last_match_wins_witness :
    (scanKeys lineC6).1 = lastSome (secondaryKeyList.map (extractForKey lineC6))
  ∧ (scanKeys lineC6).2 = secondaryKeyList.length
  ∧ extractAfter ("42\"x".toList) = valueUpTo ("42\"x".toList) :=
  c6_last_match_wins lineC6 ("42\"x".toList) (by decide)

/-! ## Claim C5: stream promotion condition -/

theorem findChar_isSome_iff (s : List Char) (c : Char) :
    (findChar s c).isSome = true ↔ c ∈ s := by
  induction s with
  | nil => simp [findChar]
  | cons d t ih =>
    by_cases hd : d == c
    · have : d = c := by simpa using hd
      simp [findChar, hd, this]
    · have hne : ¬ c = d := by
        intro hcd
        exact hd (by simp [hcd])
      simp [findChar, hd, ih, List.mem_cons, hne]

theorem findSub_isSome_iff (s p : List Char) :
    (findSub s p).isSome = true ↔ ∃ i, hasLead (List.drop i s) p = true := by
  induction s with
  | nil =>
    by_cases hp : hasLead [] p
    · simp only [findSub, hp, if_true]
      exact ⟨fun _ => ⟨0, by simpa using hp⟩, fun _ => rfl⟩
    · simp only [findSub, hp, if_false]
      constructor
      · intro h; simp at h
      · intro ⟨i, hi⟩
        rw [List.drop_nil] at hi
        exact absurd hi (by simpa using hp)
  | cons a t ih =>
    by_cases hp : hasLead (a :: t) p
    · simp only [findSub, hp, if_true]
      exact ⟨fun _ => ⟨0, by simpa using hp⟩, fun _ => rfl⟩
    · simp only [findSub, hp, if_false]
      constructor
      · intro h
        have h' : (findSub t p).isSome = true := by
          cases hft : findSub t p with
          | none => rw [hft] at h; simp at h
          | some j => simp
        rcases ih.mp h' with ⟨i, hi⟩
        exact ⟨i + 1, by simpa using hi⟩
      · intro ⟨i, hi⟩
        cases i with
        | zero =>
          rw [List.drop_zero] at hi
          exact absurd hi (by simpa using hp)
        | succ j =>
          have hj : hasLead (List.drop j t) p = true := by simpa using hi
          have h' : (findSub t p).isSome = true := ih.mpr ⟨j, hj⟩
          cases hft : findSub t p with
          | none => rw [hft] at h'; simp at h'
          | some m => simp [hft]

theorem hasLead_marker_newline (s : List Char) (h : hasLead s promoMarker = true) :
    '\n' ∈ s := by
  cases s with
  | nil => simp [hasLead, promoMarker] at h
  | cons c t =>
    cases t with
    | nil => simp [hasLead, promoMarker] at h
    | cons d u =>
      simp [hasLead, promoMarker] at h
      simp [List.mem_cons, h.2]

theorem mem_of_drop {α : Type} (i : Nat) (s : List α) (c : α) (h : c ∈ s.drop i) :
    c ∈ s := by
  induction i generalizing s with
  | zero => simpa using h
  | succ j ih =>
    cases s with
    | nil => simp at h
    | cons a t =>
      have : c ∈ t := ih t (by simpa using h)
      simp [List.mem_cons, this]

/-- C5 counterexample: the buffer `a-\n` does not start with the marker line,
yet the client is promoted, because the code searches the whole buffer with
strstr. -/
theorem c5_promotes_without_head_marker :
    clientPromotes ('a' :: promoMarker) = true
  ∧ hasLead ('a' :: promoMarker) promoMarker = false := by
  decide

/-- C5 amended: a client is promoted iff the two-byte sequence `-\n` occurs
ANYWHERE in its read buffer (the separate newline test is subsumed, since the
marker itself contains the newline); upon promotion the client becomes a
JSON-stream client and the buffered data is discarded. -/
theorem c5_promotion_anywhere (buf : List Char) (kind : ClKind) :
    (clientPromotes buf = true ↔ ∃ i, hasLead (List.drop i buf) promoMarker = true)
  ∧ (clientPromotes buf = true → clientReadUpdate buf kind = (ClKind.jstream, [])) := by
  constructor
  · constructor
    · intro h
      rw [clientPromotes] at h
      cases hfc : findChar buf '\n' with
      | none => rw [hfc] at h; simp at h
      | some j =>
        rw [hfc] at h
        exact (findSub_isSome_iff buf promoMarker).mp h
    · intro ⟨i, hi⟩
      have hnl : '\n' ∈ buf := mem_of_drop i buf '\n' (hasLead_marker_newline _ hi)
      have hcs : containsSub buf promoMarker = true :=
        (findSub_isSome_iff buf promoMarker).mpr ⟨i, hi⟩
      have hfc : (findChar buf '\n').isSome = true := (findChar_isSome_iff buf '\n').mpr hnl
      rw [clientPromotes]
      cases hc : findChar buf '\n' with
      | none => rw [hc] at hfc; simp at hfc
      | some j => exact hcs
  · intro h
    simp [clientReadUpdate, h]

/-! ## Claim C3 amended: the accepted PGN ranges -/

/-- C3 amended: for a well-framed line with a nonzero src, the parser accepts
exactly the PGNs in [MIN_PGN, MAX_PGN], storing at dense index
`prn - MIN_PGN`; prn = 0 and every prn above MAX_PGN — the whole Actisense
band included — are rejected before the index is computed; and a nonzero prn
below MIN_PGN reaches the negative-index check and aborts the process. -/
theorem c3_pgn_acceptance (ps : ProcState) (now : Int) (line : List Char)
    (src dst prn : Nat)
    (hf : containsSub line fieldsLit = true)
    (ht : hasLead line tsLit = true)
    (he : endsOk line = true)
    (hp : parseSrcDstPrn line = some (src, dst, prn))
    (hs : src ≠ 0) :
    ((prn = 0 ∨ MAX_PGN < prn) → processLine ps now line = .ok ps)
  ∧ (1 ≤ prn → prn < MIN_PGN → processLine ps now line = .abort)
  ∧ (MIN_PGN ≤ prn → prn ≤ MAX_PGN →
      processLine ps now line
        = insertIntoStore { ps with acc := ps.acc ++ line } now line prn src
            (scanKeys line).1 (scanKeys line).2 (prn - MIN_PGN)) := by
  have hM : MAX_PGN = 131000 := rfl
  have hm : MIN_PGN = 59391 := rfl
  refine ⟨?_, ?_, ?_⟩
  · rintro (hz | hgt)
    · subst hz
      simp [processLine, hf, ht, he, hp]
    · have hpnz : prn ≠ 0 := by omega
      simp [processLine, hf, ht, he, hp, hpnz, hs, hgt]
  · intro h1 h2
    have hpnz : prn ≠ 0 := by omega
    have hle : ¬ (MAX_PGN < prn) := by omega
    have hidx : PrnToIdx prn < 0 := by
      rw [PrnToIdx, if_pos (by omega : prn ≤ MAX_PGN)]
      rw [hm]
      rw [hm] at h2
      omega
    simp [processLine, hf, ht, he, hp, hpnz, hs, hle, hidx]
  · intro h1 h2
    have hpnz : prn ≠ 0 := by omega
    have hle : ¬ (MAX_PGN < prn) := by omega
    have hidx : ¬ (PrnToIdx prn < 0) := by
      rw [PrnToIdx, if_pos h2]
      rw [hm] at h1 ⊢
      omega
    have htn : (PrnToIdx prn).toNat = prn - MIN_PGN := by
      rw [PrnToIdx, if_pos h2]
      rw [hm] at h1 ⊢
      omega
    simp [processLine, hf, ht, he, hp, hpnz, hs, hle, hidx, htn]

/-- Witness for C3 at the boundary line with prn = 59391 (accepted, index 0). -/
theorem c3_pgn_acceptance_witness :
    ((59391 = 0 ∨ MAX_PGN < 59391) → processLine procInit 1000 lineB1 = .ok procInit)
  ∧ (1 ≤ 59391 → 59391 < MIN_PGN → processLine procInit 1000 lineB1 = .abort)
  ∧ (MIN_PGN ≤ 59391 → 59391 ≤ MAX_PGN →
      processLine procInit 1000 lineB1
        = insertIntoStore { procInit with acc := procInit.acc ++ lineB1 } 1000 lineB1 59391 3
            (scanKeys lineB1).1 (scanKeys lineB1).2 (59391 - MIN_PGN)) :=
  c3_pgn_acceptance procInit 1000 lineB1 3 255 59391 rfl rfl rfl rfl (by decide)

/-! ## Claim C2: what a JSON-stream client receives -/

theorem finishInsert_acc (ps : ProcState) (now : Int) (line : List Char)
    (prn src : Nat) (key2 : Option (List Char)) (k idx : Nat) (pgn : Pgn) (ps2 : ProcState)
    (hfin : finishInsert ps now line prn src key2 k idx pgn = .ok ps2) :
    ps2.acc = ps.acc := by
  unfold finishInsert at hfin
  rcases hud : updatePgnDescription pgn prn line with ⟨pgn1, b⟩
  rw [hud] at hfin
  cases b with
  | true =>
    injection hfin with h'
    rw [← h']
  | false =>
    injection hfin with h'
    rw [← h']

theorem insertIntoStore_acc (ps : ProcState) (now : Int) (line : List Char)
    (prn src : Nat) (key2 : Option (List Char)) (k idx : Nat) (ps1 : ProcState)
    (h : insertIntoStore ps now line prn src key2 k idx = .ok ps1) :
    ps1.acc = ps.acc := by
  unfold insertIntoStore at h
  split at h
  · exact finishInsert_acc _ _ _ _ _ _ _ _ _ _ h
  · split at h
    · exact absurd h (by simp)
    · exact finishInsert_acc
        { ps with store := ⟨ps.store.entries ++ [(idx, ⟨0, none, []⟩)]⟩ }
        now line prn src key2 k idx ⟨0, none, []⟩ ps1 h

theorem processLine_acc (ps : ProcState) (now : Int) (line : List Char) (ps1 : ProcState)
    (h : processLine ps now line = .ok ps1) :
    ps1.acc = ps.acc ++ (if lineAppends line then line else []) := by
  unfold processLine at h
  split at h
  next hc1 =>
    injection h with h'
    have h1 : containsSub line fieldsLit = false := by
      cases hb : containsSub line fieldsLit
      · rfl
      · exact absurd hb hc1
    simp [← h', lineAppends, h1]
  next hc1 =>
    have h1 : containsSub line fieldsLit = true := by
      cases hb : containsSub line fieldsLit
      · exact absurd (by simp [hb]) hc1
      · rfl
    split at h
    next hc2 =>
      injection h with h'
      have h2 : hasLead line tsLit = false := by
        cases hb : hasLead line tsLit
        · rfl
        · exact absurd hb hc2
      simp [← h', lineAppends, h1, h2]
    next hc2 =>
      have h2 : hasLead line tsLit = true := by
        cases hb : hasLead line tsLit
        · exact absurd (by simp [hb]) hc2
        · rfl
      split at h
      next hc3 =>
        injection h with h'
        have h3 : endsOk line = false := by
          cases hb : endsOk line
          · rfl
          · exact absurd hb hc3
        simp [← h', lineAppends, h1, h2, h3]
      next hc3 =>
        have h3 : endsOk line = true := by
          cases hb : endsOk line
          · exact absurd (by simp [hb]) hc3
          · rfl
        split at h
        next hp =>
          injection h with h'
          simp [← h', lineAppends, h1, h2, h3, hp]
        next src dst prn hp =>
          split at h
          next h4 =>
            injection h with h'
            simp [← h', lineAppends, h1, h2, h3, hp, h4]
          next h4 =>
            split at h
            next h5 =>
              injection h with h'
              simp [← h', lineAppends, h1, h2, h3, hp, h4, h5]
            next h5 =>
              split at h
              next h6 => exact absurd h (by simp)
              next h6 =>
                have hacc := insertIntoStore_acc _ _ _ _ _ _ _ _ _ h
                have happ : lineAppends line = true := by
                  simp [lineAppends, h1, h2, h3, hp, h4, h5]
                simpa [happ] using hacc

theorem feedBytes_acc (bytes : List Char) (buf : List Char) (ps : ProcState) (now : Int)
    (buf1 : List Char) (ps1 : ProcState)
    (h : feedBytes buf ps now bytes = some (buf1, ps1)) :
    ps1.acc = ps.acc ++ catList ((lineSplit buf bytes).1.filter lineAppends)
  ∧ buf1 = (lineSplit buf bytes).2 := by
  induction bytes generalizing buf ps with
  | nil =>
    simp only [feedBytes, Option.some.injEq, Prod.mk.injEq] at h
    obtain ⟨hb, hp⟩ := h
    subst hb
    subst hp
    simp [lineSplit, catList]
  | cons c rest ih =>
    unfold feedBytes handleMessageByte at h
    unfold lineSplit
    by_cases hcnd : ¬ c == '\n' && buf.length < 4096
    · rw [if_pos hcnd] at h
      rw [if_pos hcnd]
      exact ih (buf ++ [c]) ps h
    · rw [if_neg hcnd] at h
      rw [if_neg hcnd]
      cases hpl : processLine ps now buf with
      | abort =>
        rw [hpl] at h
        exact absurd h (by simp)
      | ok psA =>
        rw [hpl] at h
        have h2 : feedBytes [] psA now rest = some (buf1, ps1) := h
        rcases ih [] psA h2 with ⟨iha, ihb⟩
        dsimp only
        constructor
        · rw [iha, processLine_acc ps now buf psA hpl]
          by_cases hap : lineAppends buf = true
          · simp [hap, List.filter_cons, catList, List.append_assoc]
          · simp [hap, List.filter_cons, catList]
        · exact ihb

/-- C2 amended: across any engine run in which the client polls writable every
tick and no send is short, an initially-open JSON-stream client receives
exactly the concatenation, in input order, of the content of every line that
parsed successfully — each line delivered exactly once, but WITHOUT its
terminating newline (the newline byte never enters the line buffer, and the
raw line is appended to the broadcast accumulator as-is). -/
theorem c2_stream_delivery (ts : List TickIn) (s s1 : EngineState)
    (hacc : s.ps.acc = [])
    (hopn : s.client.opn = true)
    (hticks : ∀ t ∈ ts, t.ready = true ∧ t.cut = none)
    (hrun : engineRun s ts = some s1) :
    s1.client.received
      = s.client.received ++ catList ((linesOfTicks s.parser ts).filter lineAppends) := by
  induction ts generalizing s with
  | nil =>
    simp only [engineRun, Option.some.injEq] at hrun
    subst hrun
    simp [linesOfTicks, catList]
  | cons t ts ih =>
    obtain ⟨spar, sps, scl⟩ := s
    obtain ⟨copn, crec⟩ := scl
    simp only at hacc hopn
    subst hopn
    simp only [engineRun, engineTick] at hrun
    cases hfb : feedBytes spar sps t.now t.bytes with
    | none => rw [hfb] at hrun; simp at hrun
    | some pr =>
      obtain ⟨p1, psA⟩ := pr
      rw [hfb] at hrun
      dsimp only at hrun
      obtain ⟨hready, hcut⟩ := hticks t (List.mem_cons_self t ts)
      have hcl : streamTickClient ⟨true, crec⟩ psA.acc t = ⟨true, crec ++ psA.acc⟩ := by
        by_cases hem : psA.acc.isEmpty = true
        · have he' : psA.acc = [] := List.isEmpty_iff.mp hem
          simp [streamTickClient, hready, hem, he']
        · simp [streamTickClient, hready, hem, hcut]
      rw [hcl] at hrun
      have hres := ih ⟨p1, { psA with acc := [] }, ⟨true, crec ++ psA.acc⟩⟩ rfl rfl
        (fun u hu => hticks u (List.mem_cons_of_mem t hu)) hrun
      rcases feedBytes_acc t.bytes spar sps t.now p1 psA hfb with ⟨hA, hB⟩
      simp only at hres
      rw [hres, hA, hacc]
      subst hB
      simp only [linesOfTicks, List.filter_append, catList_append, List.append_assoc,
        List.nil_append]

def engineInit : EngineState := ⟨[], procInit, ⟨true, []⟩⟩

def tick1 : TickIn := ⟨1000, lineOk ++ ['\n'], true, none⟩

/-- C2 counterexample: a single valid line arriving as `line + '\n'` is
delivered to an always-ready stream client as exactly the line content
WITHOUT the terminating newline, so the client does not receive the line
"verbatim including its terminating newline". -/
theorem c2_newline_stripped :
    (engineRun engineInit [tick1]).map (fun s => s.client.received) = some lineOk
  ∧ (engineRun engineInit [tick1]).map (fun s => s.client.received)
      ≠ some (lineOk ++ ['\n']) := by
  have h : (engineRun engineInit [tick1]).map (fun s => s.client.received) = some lineOk := rfl
  refine ⟨h, ?_⟩
  rw [h]
  decide

/-- The engine state after feeding `lineOk` through one tick. -/
def s1W : EngineState :=
  ⟨[], ⟨⟨[(69634, ⟨129025, none, [⟨2, none, 1120, lineOk⟩]⟩)]⟩, []⟩, ⟨true, lineOk⟩⟩

/-- Witness for C2 at a concrete one-tick run. -/
theorem c2_stream_delivery_witness :
    s1W.client.received
      = engineInit.client.received
          ++ catList ((linesOfTicks engineInit.parser [tick1]).filter lineAppends) :=
  c2_stream_delivery [tick1] engineInit s1W rfl rfl (by decide) (by rfl)
